import Mathlib

/-!
Verification of the Wikipedia geoprovenance analyzer
(`src/wikipedia_geoprovenance.py`).

The development shallowly embeds the pure core of the script:

* `parse_citations_from_wikitext` : the two-pattern URL extraction with
  cleanup, validation and dict-based deduplication
  (`_parse_citations_from_wikitext`);
* `is_valid_url` : the URL validity filter (`_is_valid_url`);
* `analyze_url_geoprovenance` : per-URL domain decomposition and
  TLD-to-country classification (`analyze_url_geoprovenance`);
* `get_country_from_tld` : the static TLD country map
  (`_get_country_from_tld`);
* `generate_geoprovenance_report` : the report compiler
  (`generate_geoprovenance_report`), taking the already-fetched citation
  list (the HTTP fetch is an external collaborator) and the timestamp as
  parameters.

External library functions used by the script (`urllib.parse.urlparse`,
`tldextract.extract`, the pandas frequency-count helpers) are not part of
the repository; they are modelled here by executable definitions that
follow the behaviour of those libraries on ASCII input, with a
representative snapshot of the public suffix list.
-/

namespace WikiGeo

/-! ## Python string primitives -/

/-- Characters stripped by Python `str.strip()` with no argument, which is
also the regex `\s` class on ASCII text. -/
def pyIsSpace (c : Char) : Bool :=
  c == ' ' || c == '\t' || c == '\n' || c == '\r' || c == '\x0b' || c == '\x0c'

/-- Python `str.lower()` on ASCII text: lowercase every character. -/
def strLower (s : String) : String := String.mk (s.data.map Char.toLower)

/-- Python `str.strip()`: drop whitespace from both ends. -/
def pyStrip (s : List Char) : List Char :=
  ((s.dropWhile pyIsSpace).reverse.dropWhile pyIsSpace).reverse

/-- Python `str.rstrip(cs)`: drop any trailing characters that belong to `cs`. -/
def pyRstrip (s : List Char) (cs : List Char) : List Char :=
  (s.reverse.dropWhile (fun c => cs.contains c)).reverse

/-- Whether `pat` occurs at the start of `text`. -/
def startsWithChars : List Char → List Char → Bool
  | [], _ => true
  | _ :: _, [] => false
  | p :: ps, c :: cs => p == c && startsWithChars ps cs

/-- Whether `pat` occurs anywhere inside `text` (Python substring test). -/
def hasSubChars : List Char → List Char → Bool
  | [], pat => pat.isEmpty
  | c :: rest, pat => startsWithChars pat (c :: rest) || hasSubChars rest pat

/-- Python `sub in s` substring test. -/
def hasSubstr (s sub : String) : Bool := hasSubChars s.data sub.data

/-! ## Model of `urllib.parse.urlparse` (scheme and netloc only)

The script only reads `parsed.scheme` and `parsed.netloc`, so the model
computes exactly those two components, following CPython `urlsplit` on
ASCII input: tab/CR/LF bytes are removed, leading and trailing C0-control
and space characters are stripped, a valid scheme prefix is recognised
and lowercased, and the netloc is the run after `//` up to `/`, `?` or
`#`.  The model returns `none` where CPython raises `ValueError`
(a bracket appearing without its partner in the netloc). -/

/-- Characters allowed in a URL scheme after the initial letter
(letters, digits, `+`, `-`, `.`), as in `urllib.parse`. -/
def isSchemeChar (c : Char) : Bool := c.isAlpha || c.isDigit || c == '+' || c == '-' || c == '.'

structure ParsedUrl where
  scheme : String
  netloc : String
deriving Repr, DecidableEq

/-- Split a character list at the first `:`; `none` when there is no colon. -/
def splitColon : List Char → Option (List Char × List Char)
  | [] => none
  | ':' :: r => some ([], r)
  | c :: r => (splitColon r).map (fun pr => (c :: pr.1, pr.2))

/-- Model of `urllib.parse.urlparse`, restricted to the `scheme` and
`netloc` fields the script uses. -/
def urlparse (s : String) : Option ParsedUrl :=
  let cs0 := s.data.filter (fun c => !(c == '\t' || c == '\r' || c == '\n'))
  let cs := ((cs0.dropWhile (fun c => decide (c.toNat ≤ 32))).reverse.dropWhile
      (fun c => decide (c.toNat ≤ 32))).reverse
  let sr : String × List Char :=
    match splitColon cs with
    | some ([], _) => ("", cs)
    | some (c0 :: pre, post) =>
        if c0.isAlpha && (c0 :: pre).all isSchemeChar then
          (strLower (String.mk (c0 :: pre)), post)
        else ("", cs)
    | none => ("", cs)
  match sr.2 with
  | '/' :: '/' :: r =>
    let netloc := r.takeWhile (fun c => !(c == '/' || c == '?' || c == '#'))
    if (netloc.contains '[' && !(netloc.contains ']')) ||
       (netloc.contains ']' && !(netloc.contains '[')) then none
    else some ⟨sr.1, String.mk netloc⟩
  | _ => some ⟨sr.1, ""⟩

/-! ## Model of `tldextract.extract`

The script delegates domain decomposition to the external `tldextract`
package, which splits a host into subdomain / domain / public suffix by
longest match against the public suffix list.  The model reproduces that
algorithm over a representative snapshot of the list containing every
suffix relevant to the TLD country map plus common generic TLDs and the
standard multi-label United Kingdom suffixes.  IPv6 hosts and
internationalised dots are outside the modelled scope. -/

structure ExtractResult where
  subdomain : String
  domain : String
  suffix : String
deriving Repr, DecidableEq

/-- Snapshot of the public suffix list used by the `tldextract` model. -/
def publicSuffixList : List String :=
  ["com", "org", "net", "edu", "gov", "io", "info",
   "uk", "co.uk", "org.uk", "ac.uk", "gov.uk",
   "us", "de", "fr", "jp", "ca", "au", "com.au",
   "ch", "cn", "es", "it", "nl", "se", "no", "ru",
   "br", "com.br", "in", "kr", "co.kr", "pl"]

/-- Index of the first occurrence of `//`, if any. -/
def findDoubleSlash : List Char → Option Nat
  | '/' :: '/' :: _ => some 0
  | _ :: r => (findDoubleSlash r).map (· + 1)
  | [] => none

/-- Model of tldextract `_schemeless_url`: drop a leading `scheme://`
(or a bare leading `//`) when present. -/
def schemelessUrl (cs : List Char) : List Char :=
  match findDoubleSlash cs with
  | none => cs
  | some 0 => cs.drop 2
  | some (p + 1) =>
    if p = 0 then cs
    else if (cs.drop p).head? == some ':' && (cs.take p).all isSchemeChar then
      cs.drop (p + 3)
    else cs

/-- The part after the last `@`, or the whole list when there is no `@`
(Python `rpartition("@")[-1]`). -/
def afterLastAt (cs : List Char) : List Char :=
  (cs.reverse.takeWhile (fun c => c != '@')).reverse

/-- Model of tldextract `lenient_netloc`: the host part of a URL, with
scheme, path, query, fragment, userinfo, port and trailing dots removed. -/
def lenient_netloc (url : String) : String :=
  let cs := schemelessUrl url.data
  let cs := cs.takeWhile (fun c => c != '/')
  let cs := cs.takeWhile (fun c => c != '?')
  let cs := cs.takeWhile (fun c => c != '#')
  let cs := afterLastAt cs
  let cs := cs.takeWhile (fun c => c != ':')
  let cs := pyStrip cs
  let cs := pyRstrip cs ['.']
  String.mk cs

/-- Split a character list on `.` (Python `str.split('.')`; the empty
string yields one empty part). -/
def splitOnDot : List Char → List (List Char)
  | [] => [[]]
  | c :: r =>
    let rest := splitOnDot r
    if c == '.' then [] :: rest
    else
      match rest with
      | h :: t => (c :: h) :: t
      | [] => [[c]]

/-- Join labels with dots. -/
def dotJoin (ls : List String) : String := String.intercalate "." ls

/-- Try suffix lengths from `k` down to `1`, returning the largest length
whose label join is in the public suffix list; `0` when none is. -/
def suffixCountAux (labels : List String) : Nat → Nat
  | 0 => 0
  | k + 1 =>
    if publicSuffixList.contains (strLower (dotJoin (labels.drop (labels.length - (k + 1))))) then
      k + 1
    else suffixCountAux labels k

/-- Number of labels of the longest matching public suffix of `labels`. -/
def suffixLabelCount (labels : List String) : Nat :=
  suffixCountAux labels labels.length

/-- One dotted part of an IPv4 address: 1 to 3 digits, value at most 255,
no leading zero (tldextract's `IP_RE`). -/
def isIpv4Part (s : String) : Bool :=
  !s.isEmpty && decide (s.length ≤ 3) && s.data.all Char.isDigit &&
    decide ((s.toNat?.getD 256) ≤ 255) &&
    (s == "0" || s.data.head? != some '0')

/-- Model of tldextract `looks_like_ip` for IPv4 addresses. -/
def looksLikeIpv4 (host : String) : Bool :=
  let parts := (splitOnDot host.data).map String.mk
  decide (parts.length = 4) && parts.all isIpv4Part

/-- Model of `tldextract.extract`: decompose a URL's host into
subdomain / domain / public suffix by longest suffix-list match
(an IPv4 host becomes the whole `domain` with empty suffix). -/
def tldextract_extract (url : String) : ExtractResult :=
  let netloc := lenient_netloc url
  if looksLikeIpv4 netloc then ⟨"", netloc, ""⟩
  else
    let labels := (splitOnDot netloc.data).map String.mk
    let n := labels.length
    let k := suffixLabelCount labels
    let idx := n - k
    let suffix := dotJoin (labels.drop idx)
    let domain := if idx = 0 then "" else (labels[idx - 1]?).getD ""
    let subdomain := if idx = 0 then "" else dotJoin (labels.take (idx - 1))
    ⟨subdomain, domain, suffix⟩

/-! ## The TLD country map (`_get_country_from_tld`) -/

/-- The fixed table from `_get_country_from_tld`, in source order. -/
def country_tlds : List (String × String) :=
  [("uk", "United Kingdom"), ("us", "United States"), ("de", "Germany"),
   ("fr", "France"), ("jp", "Japan"), ("ca", "Canada"), ("au", "Australia"),
   ("ch", "Switzerland"), ("cn", "China"), ("es", "Spain"), ("it", "Italy"),
   ("nl", "Netherlands"), ("se", "Sweden"), ("no", "Norway"), ("ru", "Russia"),
   ("br", "Brazil"), ("in", "India"), ("kr", "South Korea"), ("pl", "Poland")]

/-- `_get_country_from_tld`: look the lowercased suffix up in the fixed
table (`country_tlds.get(tld.lower())`). -/
def get_country_from_tld (tld : String) : Option String :=
  (country_tlds.find? (fun p => p.1 == strLower tld)).map (fun p => p.2)

/-! ## Citations and extraction (`_parse_citations_from_wikitext`) -/

/-- A citation record: the cleaned URL and its network location, as built
by the dictionary literal in `_parse_citations_from_wikitext`. -/
structure Citation where
  url : String
  domain : String
deriving Repr, DecidableEq

/-- `_is_valid_url`: scheme is http or https, netloc is non-empty, and the
lowercased netloc does not contain `wikipedia.org`; `false` when
`urlparse` fails. -/
def is_valid_url (url : String) : Bool :=
  match urlparse url with
  | some p =>
      (p.scheme == "http" || p.scheme == "https") && !(p.netloc == "") &&
        !(hasSubstr (strLower p.netloc) "wikipedia.org")
  | none => false

/-- The per-match cleanup `url.strip().rstrip('|}')`. -/
def cleanMatch (m : String) : String :=
  String.mk (pyRstrip (pyStrip m.data) ['|', '}'])

/-- The citation record appended for a valid URL:
`{'url': url, 'domain': urlparse(url).netloc}`. -/
def citationOf (url : String) : Citation :=
  ⟨url, match urlparse url with | some p => p.netloc | none => ""⟩

/-- Cleanup, validation and record construction for one regex match. -/
def mkCitation (m : String) : Option Citation :=
  if is_valid_url (cleanMatch m) then some (citationOf (cleanMatch m)) else none

/-- Case-insensitive literal match: consume `pat` from the front of the
text, returning the rest. -/
def matchCI : List Char → List Char → Option (List Char)
  | [], text => some text
  | _ :: _, [] => none
  | p :: ps, c :: cs => if p.toLower == c.toLower then matchCI ps cs else none

/-- One attempt of the pattern `url\s*=\s*([^|}\n]+)` (case-insensitive) at
the start of the text; on success returns the captured group and the rest
of the text after the whole match. -/
def matchA (cs : List Char) : Option (String × List Char) :=
  match matchCI ['u', 'r', 'l'] cs with
  | none => none
  | some r1 =>
    match r1.dropWhile pyIsSpace with
    | '=' :: r3 =>
      let r4 := r3.dropWhile pyIsSpace
      let cap := r4.takeWhile (fun c => !(c == '|' || c == '}' || c == '\n'))
      if cap.isEmpty then none else some (String.mk cap, r4.drop cap.length)
    | _ => none

/-- One attempt of the pattern `https?://[^\s|}]+` (case-insensitive) at
the start of the text; on success returns the whole match and the rest. -/
def matchB (cs : List Char) : Option (String × List Char) :=
  match matchCI ['h', 't', 't', 'p'] cs with
  | none => none
  | some r1 =>
    let r2opt :=
      match matchCI ['s', ':', '/', '/'] r1 with
      | some r => some r
      | none => matchCI [':', '/', '/'] r1
    match r2opt with
    | none => none
    | some r2 =>
      let cap := r2.takeWhile (fun c => !(pyIsSpace c || c == '|' || c == '}'))
      if cap.isEmpty then none
      else
        let consumed := cs.length - (r2.length - cap.length)
        some (String.mk (cs.take consumed), cs.drop consumed)

/-- `re.finditer`: scan left to right, emitting non-overlapping matches and
resuming after each match.  Both patterns consume at least one character,
so the text length is enough fuel. -/
def scanMatches (m : List Char → Option (String × List Char)) : Nat → List Char → List String
  | 0, _ => []
  | _ + 1, [] => []
  | fuel + 1, c :: rest =>
    match m (c :: rest) with
    | some (s, after) => s :: scanMatches m fuel after
    | none => scanMatches m fuel rest

/-- All matches of the two url patterns, in source order: every `url=`
capture first, then every direct-URL match. -/
def url_pattern_matches (w : String) : List String :=
  scanMatches matchA w.data.length w.data ++ scanMatches matchB w.data.length w.data

/-- The citation list before deduplication: each match cleaned, validated
and turned into a record, invalid candidates dropped. -/
def parse_citations_raw (w : String) : List Citation :=
  (url_pattern_matches w).filterMap mkCitation

/-- One step of building the Python dict `{c['url']: c for c in citations}`:
a key already present keeps its position and takes the new value, a new
key is appended. -/
def dictInsert (l : List Citation) (c : Citation) : List Citation :=
  if l.any (fun d => d.url == c.url) then
    l.map (fun d => if d.url == c.url then c else d)
  else l ++ [c]

/-- `list({c['url']: c for c in citations}.values())`. -/
def dedup_citations (l : List Citation) : List Citation :=
  l.foldl dictInsert []

/-- `_parse_citations_from_wikitext`: pattern matches, cleanup, validation,
then dict-based deduplication by url. -/
def parse_citations_from_wikitext (w : String) : List Citation :=
  dedup_citations (parse_citations_raw w)

/-! ## The classifier (`analyze_url_geoprovenance`) -/

/-- One row of the analysis DataFrame. -/
structure DomainInfo where
  url : String
  domain : String
  subdomain : String
  tld : String
  country_from_tld : Option String
deriving Repr, DecidableEq

/-- The per-URL loop of `analyze_url_geoprovenance`, generalised over the
extraction call so that the `except`-and-`continue` branch (a URL whose
decomposition raises is skipped) is represented: `none` models a raised
exception and produces no row. -/
def analyze_url_geoprovenance_with (ext : String → Option ExtractResult)
    (urls : List String) : List DomainInfo :=
  urls.filterMap fun url =>
    (ext url).map fun e =>
      ⟨url, e.domain ++ "." ++ e.suffix, e.subdomain, e.suffix,
        get_country_from_tld e.suffix⟩

/-- `analyze_url_geoprovenance` with the actual extractor, which is total
on strings. -/
def analyze_url_geoprovenance (urls : List String) : List DomainInfo :=
  analyze_url_geoprovenance_with (fun url => some (tldextract_extract url)) urls

/-! ## The report compiler (`generate_geoprovenance_report`)

The pandas aggregations are modelled directly: `value_counts().to_dict()`
becomes the frequency table of the listed values (null country values are
dropped, as `value_counts` does by default; pandas orders the table by
descending count, which no aggregate quantity below depends on),
`nunique()` the number of distinct values, and `notna().sum()` the count
of non-null values. -/

/-- Append an element to an accumulator unless already present. -/
def insOrd (acc : List String) (x : String) : List String :=
  if acc.contains x then acc else acc ++ [x]

/-- The distinct values of a list, in first-occurrence order. -/
def distinctInOrder (xs : List String) : List String :=
  xs.foldl insOrd []

/-- Model of `Series.value_counts().to_dict()` over string values. -/
def value_counts (xs : List String) : List (String × Nat) :=
  (distinctInOrder xs).map (fun v => (v, xs.countP (fun x => x == v)))

/-- Model of `Series.nunique()` over string values. -/
def nunique (xs : List String) : Nat := (distinctInOrder xs).length

/-- Sum of the counts of a frequency table. -/
def sumSnd (l : List (String × Nat)) : Nat := (l.map (fun p => p.2)).sum

/-- The aggregate fields of a successful report. -/
structure ReportStats where
  total_citations : Nat
  unique_domains : Nat
  country_distribution : List (String × Nat)
  tld_distribution : List (String × Nat)
  citations_with_country_tld : Nat
deriving Repr, DecidableEq

/-- The aggregation step of `generate_geoprovenance_report`: analyze the
citation URLs and compute the distribution statistics. -/
def compile_report (citations : List Citation) : ReportStats :=
  let rows := analyze_url_geoprovenance (citations.map (fun c => c.url))
  ⟨citations.length,
   nunique (rows.map (fun r => r.domain)),
   value_counts ((rows.map (fun r => r.country_from_tld)).filterMap id),
   value_counts (rows.map (fun r => r.tld)),
   (rows.map (fun r => r.country_from_tld)).countP (fun o => o.isSome)⟩

/-- A Python value appearing in the report dictionary. -/
inductive PyVal where
  | s : String → PyVal
  | n : Nat → PyVal
  | dist : List (String × Nat) → PyVal
  | cits : List Citation → PyVal
deriving Repr, DecidableEq

/-- `generate_geoprovenance_report` as a function of the fetched citation
list (the HTTP fetch is an external collaborator) and the current
timestamp: an empty citation list yields the one-key error dictionary,
otherwise the report dictionary is built in source key order. -/
def generate_geoprovenance_report (article_title timestamp : String)
    (citations : List Citation) : List (String × PyVal) :=
  if citations.isEmpty then
    [("error", PyVal.s "No citations found or article inaccessible")]
  else
    let r := compile_report citations
    [("article_title", PyVal.s article_title),
     ("total_citations", PyVal.n r.total_citations),
     ("unique_domains", PyVal.n r.unique_domains),
     ("country_distribution", PyVal.dist r.country_distribution),
     ("tld_distribution", PyVal.dist r.tld_distribution),
     ("citations_with_country_tld", PyVal.n r.citations_with_country_tld),
     ("citations", PyVal.cits citations),
     ("analysis_timestamp", PyVal.s timestamp)]

/-! ## General lemmas about the helper operations -/

theorem strBeqComm (a b : String) : (a == b) = (b == a) := by
  by_cases h : a = b
  · subst h; rfl
  · rw [beq_eq_false_iff_ne.mpr h, beq_eq_false_iff_ne.mpr (Ne.symm h)]

theorem contains_map_url (l : List Citation) (k : String) :
    (l.map Citation.url).contains k = l.any (fun d => d.url == k) := by
  induction l with
  | nil => rfl
  | cons d t ih => simp only [List.map_cons, List.contains_cons, List.any_cons, ih,
      strBeqComm k d.url]

theorem map_url_dictInsert (l : List Citation) (c : Citation) :
    (dictInsert l c).map Citation.url =
      if l.any (fun d => d.url == c.url) then l.map Citation.url
      else l.map Citation.url ++ [c.url] := by
  unfold dictInsert
  split
  · rw [List.map_map]
    refine List.map_congr_left ?_
    intro d _
    simp only [Function.comp_apply]
    split
    · rename_i hd
      exact (eq_of_beq hd).symm
    · rfl
  · simp

theorem nodup_map_url_dictInsert (l : List Citation) (c : Citation)
    (h : (l.map Citation.url).Nodup) : ((dictInsert l c).map Citation.url).Nodup := by
  rw [map_url_dictInsert]
  split
  · exact h
  · rename_i hany
    have hnot : c.url ∉ l.map Citation.url := by
      intro hmem
      obtain ⟨d, hd, hdu⟩ := List.mem_map.mp hmem
      exact hany (List.any_eq_true.mpr ⟨d, hd, beq_iff_eq.mpr hdu⟩)
    rw [List.nodup_append]
    refine ⟨h, List.nodup_singleton _, ?_⟩
    intro a ha hb
    rw [List.mem_singleton] at hb
    subst hb
    exact hnot ha

theorem mem_dictInsert (l : List Citation) (a c : Citation) (h : c ∈ dictInsert l a) :
    c ∈ l ∨ c = a := by
  unfold dictInsert at h
  split at h
  · obtain ⟨d, hd, he⟩ := List.mem_map.mp h
    by_cases hdc : (d.url == a.url) = true
    · rw [if_pos hdc] at he
      exact Or.inr he.symm
    · rw [if_neg hdc] at he
      exact Or.inl (he ▸ hd)
  · rcases List.mem_append.mp h with h1 | h1
    · exact Or.inl h1
    · exact Or.inr (List.mem_singleton.mp h1)

theorem mem_dedup_citations (l : List Citation) (c : Citation) (h : c ∈ dedup_citations l) :
    c ∈ l := by
  induction l using List.reverseRecOn with
  | nil => exact absurd h (by simp [dedup_citations])
  | append_singleton t a ih =>
    rw [dedup_citations, List.foldl_append] at h
    simp only [List.foldl_cons, List.foldl_nil] at h
    rcases mem_dictInsert _ _ _ h with h1 | h1
    · exact List.mem_append.mpr (Or.inl (ih h1))
    · subst h1
      exact List.mem_append.mpr (Or.inr (List.mem_singleton.mpr rfl))

theorem nodup_keys_dedup (l : List Citation) :
    ((dedup_citations l).map Citation.url).Nodup := by
  induction l using List.reverseRecOn with
  | nil => simp [dedup_citations]
  | append_singleton t a ih =>
    rw [dedup_citations, List.foldl_append]
    simp only [List.foldl_cons, List.foldl_nil]
    exact nodup_map_url_dictInsert _ _ ih

theorem keys_dedup_citations (l : List Citation) :
    (dedup_citations l).map Citation.url = distinctInOrder (l.map Citation.url) := by
  induction l using List.reverseRecOn with
  | nil => rfl
  | append_singleton t a ih =>
    simp only [dedup_citations] at ih
    rw [dedup_citations, List.foldl_append]
    simp only [List.foldl_cons, List.foldl_nil]
    have hbridge : (List.foldl dictInsert [] t).any (fun d => d.url == a.url) =
        (distinctInOrder (t.map Citation.url)).contains a.url := by
      rw [← contains_map_url]
      exact congrArg (fun L => L.contains a.url) ih
    rw [map_url_dictInsert]
    rw [List.map_append, distinctInOrder, List.foldl_append]
    simp only [List.map_cons, List.map_nil, List.foldl_cons, List.foldl_nil]
    rw [← distinctInOrder, insOrd, hbridge, ih]

theorem dedup_last_write_wins (l : List Citation) (c : Citation) (h : c ∈ dedup_citations l) :
    l.reverse.find? (fun d => d.url == c.url) = some c := by
  induction l using List.reverseRecOn with
  | nil => exact absurd h (by simp [dedup_citations])
  | append_singleton t a ih =>
    rw [dedup_citations, List.foldl_append] at h
    simp only [List.foldl_cons, List.foldl_nil] at h
    rw [List.reverse_append]
    simp only [List.reverse_cons, List.reverse_nil, List.nil_append, List.singleton_append]
    unfold dictInsert at h
    split at h
    · rename_i hany
      obtain ⟨d, hd, he⟩ := List.mem_map.mp h
      by_cases hdc : (d.url == a.url) = true
      · rw [if_pos hdc] at he
        subst he
        rw [List.find?_cons_of_pos _ (by simp)]
      · rw [if_neg hdc] at he
        subst he
        have hpa : (a.url == d.url) = false := by
          cases hq : (a.url == d.url) with
          | false => rfl
          | true => exact absurd (by rw [strBeqComm]; exact hq) hdc
        rw [List.find?_cons_of_neg _ (by simp [hpa])]
        exact ih hd
    · rename_i hany
      rcases List.mem_append.mp h with h1 | h1
      · have hpa : (a.url == c.url) = false := by
          cases hq : (a.url == c.url) with
          | false => rfl
          | true =>
            exfalso
            exact hany (List.any_eq_true.mpr ⟨c, h1, by rw [strBeqComm]; exact hq⟩)
        rw [List.find?_cons_of_neg _ (by simp [hpa])]
        exact ih h1
      · rw [List.mem_singleton] at h1
        subst h1
        rw [List.find?_cons_of_pos _ (by simp)]

theorem mem_insOrd_iff (acc : List String) (x y : String) :
    y ∈ insOrd acc x ↔ y ∈ acc ∨ y = x := by
  rw [insOrd]
  split
  · rename_i h
    constructor
    · exact Or.inl
    · rintro (hy | rfl)
      · exact hy
      · exact List.mem_of_elem_eq_true h
  · simp

theorem mem_foldl_insOrd (xs : List String) :
    ∀ (acc : List String) (y : String), y ∈ xs.foldl insOrd acc ↔ y ∈ acc ∨ y ∈ xs := by
  induction xs with
  | nil => intro acc y; simp
  | cons x t ih =>
    intro acc y
    rw [List.foldl_cons, ih, mem_insOrd_iff]
    simp only [List.mem_cons]
    tauto

theorem mem_distinctInOrder (xs : List String) (y : String) :
    y ∈ distinctInOrder xs ↔ y ∈ xs := by
  rw [distinctInOrder, mem_foldl_insOrd]
  simp

theorem nodup_insOrd (acc : List String) (x : String) (h : acc.Nodup) :
    (insOrd acc x).Nodup := by
  rw [insOrd]
  split
  · exact h
  · rename_i hc
    rw [List.nodup_append]
    refine ⟨h, List.nodup_singleton _, ?_⟩
    intro a ha hb
    rw [List.mem_singleton] at hb
    subst hb
    exact hc (List.elem_eq_true_of_mem ha)

theorem nodup_foldl_insOrd (xs : List String) :
    ∀ acc : List String, acc.Nodup → (xs.foldl insOrd acc).Nodup := by
  induction xs with
  | nil => intro acc h; exact h
  | cons x t ih => intro acc h; exact ih _ (nodup_insOrd acc x h)

theorem nodup_distinctInOrder (xs : List String) : (distinctInOrder xs).Nodup :=
  nodup_foldl_insOrd xs [] List.nodup_nil

theorem sum_indicator_not_mem (ds : List String) (x : String) (hx : x ∉ ds) :
    (ds.map (fun v => if x = v then 1 else 0)).sum = 0 := by
  induction ds with
  | nil => rfl
  | cons d t ih =>
    have hxd : ¬ x = d := fun he => hx (he ▸ List.mem_cons_self d t)
    simp [if_neg hxd, ih (fun ht => hx (List.mem_cons_of_mem d ht))]

theorem sum_indicator_mem (ds : List String) (x : String) (hd : ds.Nodup) (hx : x ∈ ds) :
    (ds.map (fun v => if x = v then 1 else 0)).sum = 1 := by
  induction ds with
  | nil => exact absurd hx (List.not_mem_nil x)
  | cons d t ih =>
    rw [List.nodup_cons] at hd
    rcases List.mem_cons.mp hx with he | ht
    · subst he
      simp [sum_indicator_not_mem t x hd.1]
    · have hxd : ¬ x = d := fun he2 => hd.1 (he2 ▸ ht)
      simp [if_neg hxd, ih hd.2 ht]

theorem sum_countP_cover (xs ds : List String) (hd : ds.Nodup) (hcov : ∀ x ∈ xs, x ∈ ds) :
    (ds.map (fun v => xs.countP (fun x => x == v))).sum = xs.length := by
  induction xs with
  | nil => simp
  | cons x t ih =>
    have hmap : ds.map (fun v => (x :: t).countP (fun y => y == v)) =
        ds.map (fun v => t.countP (fun y => y == v) + (if x = v then 1 else 0)) := by
      refine List.map_congr_left (fun v _ => ?_)
      rw [List.countP_cons]
      by_cases hxv : x = v <;> simp [hxv]
    rw [hmap,
      show (ds.map (fun v => t.countP (fun y => y == v) + (if x = v then 1 else 0))).sum =
          (ds.map (fun v => t.countP (fun y => y == v))).sum +
            (ds.map (fun v => if x = v then 1 else 0)).sum from List.sum_map_add,
      ih (fun y hy => hcov y (List.mem_cons_of_mem x hy)),
      sum_indicator_mem ds x hd (hcov x (List.mem_cons_self x t))]
    simp [Nat.add_comm]

theorem sumSnd_value_counts (xs : List String) : sumSnd (value_counts xs) = xs.length := by
  rw [sumSnd, value_counts, List.map_map]
  exact sum_countP_cover xs (distinctInOrder xs) (nodup_distinctInOrder xs)
    (fun x hx => (mem_distinctInOrder xs x).mpr hx)

theorem length_filterMap_id (xs : List (Option String)) :
    (xs.filterMap id).length = xs.countP (fun o => o.isSome) := by
  induction xs with
  | nil => rfl
  | cons o t ih => cases o <;> simp [List.filterMap_cons, List.countP_cons, ih]

theorem analyze_with_total_length (f : String → ExtractResult) (urls : List String) :
    (analyze_url_geoprovenance_with (fun u => some (f u)) urls).length = urls.length := by
  induction urls with
  | nil => rfl
  | cons u t ih =>
    have step : analyze_url_geoprovenance_with (fun u => some (f u)) (u :: t) =
        (⟨u, (f u).domain ++ "." ++ (f u).suffix, (f u).subdomain, (f u).suffix,
          get_country_from_tld (f u).suffix⟩ : DomainInfo) ::
          analyze_url_geoprovenance_with (fun u => some (f u)) t := rfl
    rw [step, List.length_cons, ih, List.length_cons]

theorem valid_iff (u : String) :
    is_valid_url u = true ↔ ∃ p, urlparse u = some p ∧
      (p.scheme = "http" ∨ p.scheme = "https") ∧ p.netloc ≠ "" ∧
      hasSubstr (strLower p.netloc) "wikipedia.org" = false := by
  rw [is_valid_url]
  cases hp : urlparse u with
  | none => simp
  | some p =>
    dsimp only
    simp only [Bool.and_eq_true, Bool.or_eq_true, beq_iff_eq, Bool.not_eq_true',
      beq_eq_false_iff_ne, Option.some.injEq]
    constructor
    · rintro ⟨⟨h1, h2⟩, h3⟩
      exact ⟨p, rfl, h1, h2, h3⟩
    · rintro ⟨q, hq, h1, h2, h3⟩
      subst hq
      exact ⟨⟨h1, h2⟩, h3⟩

theorem parse_raw_shape (w : String) (c : Citation) (h : c ∈ parse_citations_raw w) :
    c = citationOf c.url ∧ is_valid_url c.url = true := by
  rw [parse_citations_raw, List.mem_filterMap] at h
  obtain ⟨m, _, hm⟩ := h
  rw [mkCitation] at hm
  split at hm
  · rename_i hv
    have hc : citationOf (cleanMatch m) = c := Option.some.inj hm
    have hurl : c.url = cleanMatch m := by rw [← hc]; rfl
    constructor
    · rw [hurl, ← hc]
    · rw [hurl]; exact hv
  · exact absurd hm (by simp)

theorem parse_raw_same_url (w : String) (c d : Citation) (hc : c ∈ parse_citations_raw w)
    (hd : d ∈ parse_citations_raw w) (h : c.url = d.url) : c = d := by
  obtain ⟨hc1, _⟩ := parse_raw_shape w c hc
  obtain ⟨hd1, _⟩ := parse_raw_shape w d hd
  rw [hc1, hd1, h]

/-! ## Claim theorems -/

/-- C1, counterexample: for the multi-label-suffix URL
`https://news.bbc.co.uk/news/123` the classifier does not resolve the
country to United Kingdom, contrary to the claim. -/
theorem C1_counterexample :
    (analyze_url_geoprovenance ["https://news.bbc.co.uk/news/123"]).map
      (fun r => r.country_from_tld) ≠ [some "United Kingdom"] := by decide

/-- C1 (corrected): for `news.bbc.co.uk` the classifier returns registrable
domain `bbc.co.uk` and subdomain `news` as claimed, but the country is
obtained by looking up the full suffix `co.uk` — not its last label — in
the TLD country map, so the country is absent, even though looking up the
bare label `uk` would give United Kingdom. -/
theorem C1_thm :
    analyze_url_geoprovenance ["https://news.bbc.co.uk/news/123"] =
      [⟨"https://news.bbc.co.uk/news/123", "bbc.co.uk", "news", "co.uk", none⟩] ∧
    get_country_from_tld "co.uk" = none ∧
    get_country_from_tld "uk" = some "United Kingdom" := by decide

/-- C2, counterexample: on an empty citation list the compiler returns the
one-key mapping whose message is capitalised
(`No citations found or article inaccessible`), not the claimed fixed
message starting with a lowercase `no`. -/
theorem C2_counterexample :
    generate_geoprovenance_report "T" "ts" [] =
      [("error", PyVal.s "No citations found or article inaccessible")] ∧
    ("error", PyVal.s "no citations found or article inaccessible") ∉
      generate_geoprovenance_report "T" "ts" [] := by
  exact ⟨rfl, by decide⟩

/-- C2 (corrected): on an empty citation list the compiler returns a plain
mapping whose only key is `error` with the capitalised message, and a
successful report is distinguished from it only by the presence of the
`error` key among the mapping keys (the driver tests
`'error' not in report`), not by a tagged variant. -/
theorem C2_thm (t ts : String) (citations : List Citation) (h : citations ≠ []) :
    generate_geoprovenance_report t ts [] =
      [("error", PyVal.s "No citations found or article inaccessible")] ∧
    "error" ∉ (generate_geoprovenance_report t ts citations).map Prod.fst := by
  refine ⟨rfl, ?_⟩
  match citations with
  | [] => exact absurd rfl h
  | c :: cs =>
    have hkeys : (generate_geoprovenance_report t ts (c :: cs)).map Prod.fst =
        ["article_title", "total_citations", "unique_domains", "country_distribution",
         "tld_distribution", "citations_with_country_tld", "citations",
         "analysis_timestamp"] := rfl
    rw [hkeys]
    decide

/-- C2 witness. -/
theorem C2_witness :
    generate_geoprovenance_report "Salzburg" "2026-10-12" [] =
      [("error", PyVal.s "No citations found or article inaccessible")] ∧
    "error" ∉ (generate_geoprovenance_report "Salzburg" "2026-10-12"
      [⟨"http://a.com/", "a.com"⟩]).map Prod.fst :=
  C2_thm "Salzburg" "2026-10-12" [⟨"http://a.com/", "a.com"⟩] (by decide)

/-- C3, counterexample: a URL whose domain decomposition fails is dropped
from the analysis rows entirely, not kept as an unclassified row. -/
theorem C3_counterexample :
    analyze_url_geoprovenance_with (fun _ => none) ["http://example.com/"] = [] := rfl

/-- C3 (corrected): the per-URL analysis never propagates a decomposition
failure, but a URL whose decomposition fails is skipped — no row with that
URL appears and the row count can fall below the URL count — rather than
being included in the aggregates as unclassified. -/
theorem C3_thm (ext : String → Option ExtractResult) (urls : List String) (url : String)
    (h : ext url = none) :
    (∀ row ∈ analyze_url_geoprovenance_with ext urls, row.url ≠ url) ∧
    (analyze_url_geoprovenance_with ext urls).length ≤ urls.length := by
  constructor
  · intro row hrow heq
    rw [analyze_url_geoprovenance_with, List.mem_filterMap] at hrow
    obtain ⟨u, _, he⟩ := hrow
    cases hext : ext u with
    | none => rw [hext] at he; exact absurd he (by simp)
    | some e =>
      rw [hext] at he
      rw [Option.map_some'] at he
      have hu : row.url = u := by rw [← Option.some.inj he]
      rw [heq] at hu
      rw [← hu] at hext
      rw [h] at hext
      exact absurd hext (by simp)
  · exact List.length_filterMap_le _ _

/-- C3 witness. -/
theorem C3_witness :
    (analyze_url_geoprovenance_with (fun _ => none) ["http://example.com/"]).length ≤
      (["http://example.com/"] : List String).length :=
  (C3_thm (fun _ => none) ["http://example.com/"] "http://example.com/" rfl).2

/-- C4 (confirmed): the extraction result has pairwise-distinct urls
(at most one Citation per distinct cleaned url), and the citation kept for
each url equals the first match with that url in the pre-deduplication
traversal (the record is determined by the url, so the first match wins
observationally). -/
theorem C4_thm (w : String) (c : Citation) (h : c ∈ parse_citations_from_wikitext w) :
    ((parse_citations_from_wikitext w).map Citation.url).Nodup ∧
    (parse_citations_raw w).find? (fun d => d.url == c.url) = some c := by
  refine ⟨nodup_keys_dedup _, ?_⟩
  have hc : c ∈ parse_citations_raw w := mem_dedup_citations _ _ h
  have hsome : ((parse_citations_raw w).find? (fun d => d.url == c.url)).isSome :=
    List.find?_isSome.mpr ⟨c, hc, by simp⟩
  obtain ⟨d, hd⟩ := Option.isSome_iff_exists.mp hsome
  have hdm := List.mem_of_find?_eq_some hd
  have hdp := List.find?_some hd
  rw [hd, parse_raw_same_url w d c hdm hc (eq_of_beq hdp)]

/-- C4 witness. -/
theorem C4_witness :
    ((parse_citations_from_wikitext "{{cite|url=http://a.com/x}}").map Citation.url).Nodup ∧
    (parse_citations_raw "{{cite|url=http://a.com/x}}").find?
      (fun d => d.url == "http://a.com/x") = some ⟨"http://a.com/x", "a.com"⟩ :=
  C4_thm "{{cite|url=http://a.com/x}}" ⟨"http://a.com/x", "a.com"⟩ (by decide)

/-- C5 (confirmed): deduplication is by exact url string equality with
dict semantics — the value kept for a url is the last-written occurrence
(the first hit of the reversed pre-dedup list), the output key order is
the first-occurrence order of the urls, and a wikitext in which both
patterns match the identical URL yields exactly one Citation for it. -/
theorem C5_thm (l : List Citation) (c : Citation) (h : c ∈ dedup_citations l) :
    l.reverse.find? (fun d => d.url == c.url) = some c ∧
    (dedup_citations l).map Citation.url = distinctInOrder (l.map Citation.url) ∧
    parse_citations_from_wikitext "{{cite|url=http://a.com/x}} http://a.com/x" =
      [⟨"http://a.com/x", "a.com"⟩] :=
  ⟨dedup_last_write_wins l c h, keys_dedup_citations l, by decide⟩

/-- C5 witness. -/
theorem C5_witness :
    ([⟨"u", "a"⟩, ⟨"u", "b"⟩] : List Citation).reverse.find?
      (fun d => d.url == "u") = some ⟨"u", "b"⟩ ∧
    (dedup_citations [⟨"u", "a"⟩, ⟨"u", "b"⟩]).map Citation.url =
      distinctInOrder (([⟨"u", "a"⟩, ⟨"u", "b"⟩] : List Citation).map Citation.url) ∧
    parse_citations_from_wikitext "{{cite|url=http://a.com/x}} http://a.com/x" =
      [⟨"http://a.com/x", "a.com"⟩] :=
  C5_thm [⟨"u", "a"⟩, ⟨"u", "b"⟩] ⟨"u", "b"⟩ (by decide)

/-- C6 (confirmed): in every successful report the citation-with-country
count is at most the total citation count, and — the distribution having
no unknown bucket — the sum of the country distribution counts is also at
most the total citation count. -/
theorem C6_thm (citations : List Citation) (_h : citations ≠ []) :
    (compile_report citations).citations_with_country_tld ≤
      (compile_report citations).total_citations ∧
    sumSnd (compile_report citations).country_distribution ≤
      (compile_report citations).total_citations := by
  have hlen : (analyze_url_geoprovenance
      (citations.map (fun c => c.url))).length = citations.length := by
    simp only [analyze_url_geoprovenance]
    rw [analyze_with_total_length tldextract_extract, List.length_map]
  have hcwc : (compile_report citations).citations_with_country_tld ≤ citations.length := by
    show ((analyze_url_geoprovenance (citations.map (fun c => c.url))).map
      (fun r => r.country_from_tld)).countP (fun o => o.isSome) ≤ citations.length
    calc ((analyze_url_geoprovenance (citations.map (fun c => c.url))).map
        (fun r => r.country_from_tld)).countP (fun o => o.isSome)
        ≤ ((analyze_url_geoprovenance (citations.map (fun c => c.url))).map
            (fun r => r.country_from_tld)).length := List.countP_le_length _
      _ = citations.length := by rw [List.length_map, hlen]
  have hsum : sumSnd (compile_report citations).country_distribution =
      (compile_report citations).citations_with_country_tld := by
    show sumSnd (value_counts (((analyze_url_geoprovenance
        (citations.map (fun c => c.url))).map (fun r => r.country_from_tld)).filterMap id)) = _
    rw [sumSnd_value_counts, length_filterMap_id]
    rfl
  exact ⟨hcwc, by rw [hsum]; exact hcwc⟩

/-- C6 witness. -/
theorem C6_witness :
    (compile_report [⟨"https://www.bbc.co.uk/news/123", "www.bbc.co.uk"⟩]).citations_with_country_tld ≤
      (compile_report [⟨"https://www.bbc.co.uk/news/123", "www.bbc.co.uk"⟩]).total_citations ∧
    sumSnd (compile_report [⟨"https://www.bbc.co.uk/news/123", "www.bbc.co.uk"⟩]).country_distribution ≤
      (compile_report [⟨"https://www.bbc.co.uk/news/123", "www.bbc.co.uk"⟩]).total_citations :=
  C6_thm [⟨"https://www.bbc.co.uk/news/123", "www.bbc.co.uk"⟩] (by decide)

/-- C7 (confirmed): a candidate URL passes validation exactly when its
parsed scheme is http or https, its netloc is non-empty, and the
lowercased netloc does not contain `wikipedia.org` (an unparseable URL is
rejected rather than raising); consequently no extracted citation has a
netloc containing `wikipedia.org`, and a wikitext whose only URL is a
Wikipedia self-link extracts to nothing. -/
theorem C7_thm (u w : String) (c : Citation) (hc : c ∈ parse_citations_from_wikitext w) :
    (is_valid_url u = true ↔ ∃ p, urlparse u = some p ∧
      (p.scheme = "http" ∨ p.scheme = "https") ∧ p.netloc ≠ "" ∧
      hasSubstr (strLower p.netloc) "wikipedia.org" = false) ∧
    hasSubstr (strLower c.domain) "wikipedia.org" = false ∧
    parse_citations_from_wikitext "See also https://en.wikipedia.org/wiki/Y" = [] := by
  refine ⟨valid_iff u, ?_, by decide⟩
  have hraw : c ∈ parse_citations_raw w := mem_dedup_citations _ _ hc
  obtain ⟨hcu, hval⟩ := parse_raw_shape w c hraw
  obtain ⟨p, hp, _, _, hws⟩ := (valid_iff c.url).mp hval
  have hdom : c.domain = p.netloc := by
    have h1 : c.domain = (citationOf c.url).domain := congrArg Citation.domain hcu
    rw [h1]
    show (match urlparse c.url with | some p => p.netloc | none => "") = p.netloc
    rw [hp]
  rw [hdom]
  exact hws

/-- C7 witness. -/
theorem C7_witness :
    (is_valid_url "http://a.com/x" = true ↔ ∃ p, urlparse "http://a.com/x" = some p ∧
      (p.scheme = "http" ∨ p.scheme = "https") ∧ p.netloc ≠ "" ∧
      hasSubstr (strLower p.netloc) "wikipedia.org" = false) ∧
    hasSubstr (strLower "a.com") "wikipedia.org" = false ∧
    parse_citations_from_wikitext "See also https://en.wikipedia.org/wiki/Y" = [] :=
  C7_thm "http://a.com/x" "{{cite|url=http://a.com/x}}" ⟨"http://a.com/x", "a.com"⟩
    (by decide)

/-- C8 (confirmed): the TLD country map lookup is case-insensitive (inputs
equal up to lowercasing give the same result, and `UK` and `uk` both map
to United Kingdom), the table has exactly 19 entries, lookups of generic
TLDs return absent, and a lookup succeeds exactly when the lowercased
input is one of the table keys. -/
theorem C8_thm (s t : String) (h : strLower s = strLower t) :
    get_country_from_tld s = get_country_from_tld t ∧
    get_country_from_tld "UK" = some "United Kingdom" ∧
    get_country_from_tld "uk" = some "United Kingdom" ∧
    get_country_from_tld "com" = none ∧
    get_country_from_tld "org" = none ∧
    get_country_from_tld "net" = none ∧
    country_tlds.length = 19 ∧
    ((get_country_from_tld s).isSome ↔ strLower s ∈ country_tlds.map Prod.fst) := by
  refine ⟨by simp only [get_country_from_tld, h], by decide, by decide, by decide,
    by decide, by decide, by decide, ?_⟩
  rw [get_country_from_tld, Option.isSome_map']
  constructor
  · intro hs
    obtain ⟨x, hx, hpx⟩ := List.find?_isSome.mp hs
    exact List.mem_map.mpr ⟨x, hx, eq_of_beq hpx⟩
  · intro hs
    obtain ⟨x, hx, hfx⟩ := List.mem_map.mp hs
    exact List.find?_isSome.mpr ⟨x, hx, beq_iff_eq.mpr hfx⟩

/-- C8 witness. -/
theorem C8_witness :
    get_country_from_tld "UK" = get_country_from_tld "uk" ∧
    get_country_from_tld "UK" = some "United Kingdom" ∧
    get_country_from_tld "uk" = some "United Kingdom" ∧
    get_country_from_tld "com" = none ∧
    get_country_from_tld "org" = none ∧
    get_country_from_tld "net" = none ∧
    country_tlds.length = 19 ∧
    ((get_country_from_tld "UK").isSome ↔ strLower "UK" ∈ country_tlds.map Prod.fst) :=
  C8_thm "UK" "uk" (by decide)

/-- C9 (confirmed, implicit): the country distribution omits citations
with an absent country — its keys all come from actually-resolved
countries and its counts sum exactly to `citations_with_country_tld` —
and on a citation whose TLD is generic that sum is strictly below
`total_citations`. -/
theorem C9_thm (citations : List Citation) (_h : citations ≠ []) :
    sumSnd (compile_report citations).country_distribution =
      (compile_report citations).citations_with_country_tld ∧
    (∀ k, k ∈ (compile_report citations).country_distribution.map Prod.fst →
      some k ∈ (analyze_url_geoprovenance (citations.map (fun c => c.url))).map
        (fun r => r.country_from_tld)) ∧
    (compile_report [⟨"http://a.com/", "a.com"⟩]).citations_with_country_tld <
      (compile_report [⟨"http://a.com/", "a.com"⟩]).total_citations := by
  refine ⟨?_, ?_, by decide⟩
  · show sumSnd (value_counts (((analyze_url_geoprovenance
        (citations.map (fun c => c.url))).map (fun r => r.country_from_tld)).filterMap id)) = _
    rw [sumSnd_value_counts, length_filterMap_id]
    rfl
  · intro k hk
    have hkeys : ((compile_report citations).country_distribution).map Prod.fst =
        distinctInOrder (((analyze_url_geoprovenance
          (citations.map (fun c => c.url))).map (fun r => r.country_from_tld)).filterMap id) := by
      show (value_counts _).map Prod.fst = _
      rw [value_counts, List.map_map]
      exact List.map_id _
    rw [hkeys] at hk
    have hk2 := (mem_distinctInOrder _ k).mp hk
    obtain ⟨o, ho, hid⟩ := List.mem_filterMap.mp hk2
    cases o with
    | none => exact absurd hid (by simp)
    | some v =>
      have hv : v = k := by simpa using hid
      subst hv
      exact ho

/-- C9 witness. -/
theorem C9_witness :
    sumSnd (compile_report [⟨"http://a.com/", "a.com"⟩]).country_distribution =
      (compile_report [⟨"http://a.com/", "a.com"⟩]).citations_with_country_tld :=
  (C9_thm [⟨"http://a.com/", "a.com"⟩] (by decide)).1

/-- C10 (confirmed, implicit): a URL whose host has no recognised public
suffix still produces a row whose registrable-domain field is the bare
domain label with a trailing dot (the empty suffix is concatenated after
the dot), whose tld is the empty string and whose country is absent; such
a citation still counts toward `unique_domains` and contributes an
empty-string bucket to `tld_distribution`. -/
theorem C10_thm (url : String) (e : ExtractResult) (d : String)
    (h1 : tldextract_extract url = e) (h2 : e.suffix = "") :
    analyze_url_geoprovenance [url] =
      [⟨url, e.domain ++ ".", e.subdomain, "", none⟩] ∧
    (compile_report [⟨url, d⟩]).unique_domains = 1 ∧
    (compile_report [⟨url, d⟩]).tld_distribution = [("", 1)] := by
  have hrow : analyze_url_geoprovenance [url] =
      [⟨url, e.domain ++ ".", e.subdomain, "", none⟩] := by
    have hbase : analyze_url_geoprovenance [url] =
        [⟨url, (tldextract_extract url).domain ++ "." ++ (tldextract_extract url).suffix,
          (tldextract_extract url).subdomain, (tldextract_extract url).suffix,
          get_country_from_tld (tldextract_extract url).suffix⟩] := rfl
    rw [hbase, h1, h2]
    have hge : get_country_from_tld "" = none := by decide
    rw [hge, String.append_empty]
  refine ⟨hrow, ?_, ?_⟩
  · show nunique ((analyze_url_geoprovenance [url]).map (fun r => r.domain)) = 1
    rw [hrow]
    show nunique [e.domain ++ "."] = 1
    simp [nunique, distinctInOrder, insOrd]
  · show value_counts ((analyze_url_geoprovenance [url]).map (fun r => r.tld)) = [("", 1)]
    rw [hrow]
    show value_counts [""] = [("", 1)]
    decide

/-- C10 witness. -/
theorem C10_witness :
    analyze_url_geoprovenance ["http://localhost/x"] =
      [⟨"http://localhost/x", "localhost.", "", "", none⟩] ∧
    (compile_report [⟨"http://localhost/x", "localhost"⟩]).unique_domains = 1 ∧
    (compile_report [⟨"http://localhost/x", "localhost"⟩]).tld_distribution = [("", 1)] :=
  C10_thm "http://localhost/x" ⟨"", "localhost", ""⟩ "localhost" (by decide) rfl

end WikiGeo
